import Mathlib

/-!
Verification of the frame-indexing and dark/flat-correction engine of
`savu/data/data_structures/data_types/data_plus_darks_and_flats.py`
(classes `DataWithDarksAndFlats`, `ImageKey`, `NoImageKey`).

Modelling conventions:
* numpy integer arrays along the projection axis are `List Nat` / `List Int`;
* numpy floating point data is modelled exactly in `ℚ` (so `astype(np.float32)`
  is the identity on values);
* Python exceptions (`IndexError`, `AttributeError`, `TypeError`, `ValueError`,
  `KeyError`, ...) are modelled by `Option`: a raising computation returns `none`;
* a Python `slice` object is `PySlice`; `slice(None)` is `sliceAll`;
* n-dimensional numpy arrays are a shape together with a value function on
  (row-major) multi-indices.
-/

namespace Savu

/-- Indices `i` of `l` with `p (l[i])`, ascending: the model of `np.where(p(arr))[0]`. -/
def whereIdx {α : Type} [Inhabited α] (l : List α) (p : α → Bool) : List Nat :=
  (List.range l.length).filter (fun i => p (l.getD i default))

/-- Model of `np.where(image_key == key)[0]`: positions carrying label `key`, ascending. -/
def whereEq (ik : List Nat) (key : Nat) : List Nat :=
  whereIdx ik (fun v => v == key)

/-- Model of `np.diff(index)` for an integer array. -/
def npDiff (l : List Nat) : List Int :=
  List.zipWith (fun (a b : Nat) => (b : Int) - (a : Int)) l l.tail

/-- Scalar integer indexing of a numpy 1-d array: negative indices wrap once,
out-of-range indexing raises (`none`). -/
def npGet {α : Type} (l : List α) (i : Int) : Option α :=
  let j : Int := if i < 0 then i + l.length else i
  if 0 ≤ j ∧ j < l.length then l.get? j.toNat else none

/-- Fancy (integer-array) indexing of a numpy 1-d array: any out-of-range entry
raises (`none`), otherwise the positions are gathered in order. -/
def fancyIdx {α : Type} (l : List α) (js : List Int) : Option (List α) :=
  if js.all (fun j => (npGet l j).isSome) then some (js.filterMap (fun j => npGet l j))
  else none

/-- Values of `l` at a list of (in-range) natural positions; `l[positions]` once
the positions are known to be in range. -/
def atIdxs (l : List Nat) (is : List Nat) : List Nat :=
  is.map (fun i => l.getD i 0)

/-- `DataWithDarksAndFlats._get_start_end_idx(index)`:

    start = [0] + list(np.where(np.diff(index) > 1)[0]+1)
    end = np.array(start[1:] + [len(index)])-1
    start_entry = index[start]
    end_entry = index[end]
    return start, end, start_entry, end_entry

`start` is a Python list of run-start indices, `end` a numpy `Int` array of
run-end indices, `start_entry`/`end_entry` the index values there.  On an empty
`index` the fancy indexing `index[start]` raises `IndexError` (`none`). -/
def getStartEndIdx (index : List Nat) :
    Option (List Nat × List Int × List Nat × List Nat) :=
  let start : List Nat := 0 :: (whereIdx (npDiff index) (fun d => d > 1)).map (· + 1)
  let endI : List Int :=
    (start.tail.map Int.ofNat ++ [(index.length : Int)]).map (fun x => x - 1)
  match fancyIdx index (start.map Int.ofNat), fancyIdx index endI with
  | some startEntry, some endEntry => some (start, endI, startEntry, endEntry)
  | _, _ => none

/-- Break positions of `l` in diff-space: the model of
`np.where(np.diff(index) > 1)[0]` (closed form used in proofs). -/
def bks (l : List Nat) : List Nat :=
  whereIdx (npDiff l) (fun d => d > 1)

/-- Closed form of the `start` component of `getStartEndIdx`. -/
def startL (l : List Nat) : List Nat :=
  0 :: (bks l).map (· + 1)

/-- Closed form of the run-end index positions of `getStartEndIdx` (as naturals). -/
def endLN (l : List Nat) : List Nat :=
  bks l ++ [l.length - 1]

/-- Specification-side run decomposition, written from the spec's words: the
(start value, end value) pairs of the maximal contiguous runs of a sorted
position list, a break falling exactly where consecutive positions differ by
more than 1. -/
def runsSpec : List Nat → List (Nat × Nat)
  | [] => []
  | x :: xs =>
    match runsSpec xs with
    | [] => [(x, x)]
    | (s, e) :: rs => if s = x + 1 then (x, e) :: rs else (x, x) :: (s, e) :: rs

/-- A Python `slice(start, stop, step)` object (`None` fields are `none`). -/
structure PySlice where
  start : Option Int
  stop : Option Int
  step : Option Int
deriving DecidableEq

/-- `slice(None)`, i.e. select-all. -/
def sliceAll : PySlice := ⟨none, none, none⟩

instance : Inhabited PySlice := ⟨sliceAll⟩

/-- The positions selected by a Python slice from a sequence of length `n`,
following `PySlice.indices` semantics of CPython (clamping, negative wrap,
negative steps); `step == 0` raises `ValueError` (`none`). -/
def sliceIndices (n : Nat) (s : PySlice) : Option (List Nat) :=
  let step : Int := s.step.getD 1
  if step = 0 then none
  else if 0 < step then
    let start : Int :=
      match s.start with
      | none => 0
      | some v =>
        let v' : Int := if v < 0 then v + n else v
        if v' < 0 then 0 else if v' > n then n else v'
    let stop : Int :=
      match s.stop with
      | none => n
      | some v =>
        let v' : Int := if v < 0 then v + n else v
        if v' < 0 then 0 else if v' > n then n else v'
    let cnt : Nat := if start < stop then (((stop - start) + step - 1) / step).toNat else 0
    some ((List.range cnt).map (fun k => (start + k * step).toNat))
  else
    let start : Int :=
      match s.start with
      | none => n - 1
      | some v =>
        let v' : Int := if v < 0 then v + n else v
        if v' < 0 then -1 else if v' ≥ n then n - 1 else v'
    let stop : Int :=
      match s.stop with
      | none => -1
      | some v =>
        let v' : Int := if v < 0 then v + n else v
        if v' < 0 then -1 else if v' ≥ n then n - 1 else v'
    let cnt : Nat := if stop < start then (((start - stop) + (-step) - 1) / (-step)).toNat else 0
    some ((List.range cnt).map (fun k => (start + k * step).toNat))

/-- Python/numpy basic slicing of a 1-d sequence by a slice object. -/
def applyPySlice {α : Type} (l : List α) (s : PySlice) : Option (List α) :=
  (sliceIndices l.length s).map (fun is => is.filterMap l.get?)

/-- The attribute access `self.__get_start_end_idx` in
`DataWithDarksAndFlats.__get_reduced_index` undergoes Python name mangling to
`self._DataWithDarksAndFlats__get_start_end_idx`; the class hierarchy only
defines `_get_start_end_idx` (one leading underscore, line 147), so the lookup
raises `AttributeError` (which the bare `except` in `__get_preview_index`
later swallows).  Modelled as an always-raising call. -/
def getStartEndIdxMangled (_ : List Nat) :
    Option (List Nat × List Int × List Nat × List Nat) :=
  none

/-- The body of `DataWithDarksAndFlats.__get_reduced_index(key, slice_list)`,
parametrised by the segmenter call it makes (see `getStartEndIdxMangled`):

    data_entries = np.where(self.image_key == 0)[0][slice_list]
    if key == 0:
        return data_entries
    index = np.where(self.image_key == key)[0]
    start_idx, end_idx, start_entry, end_entry = self.__get_start_end_idx(index)
    val = index[np.where(np.less(index, data_entries[0]))[0][-1]]
    start = start_idx[np.where(end_entry == val)[0]]
    val2 = index[np.where(np.greater(index, data_entries[-1]))[0][0]]
    end = end_idx[np.where(end_entry == val2)[0]]+1
    return index[start:end]

`start_idx` is a Python list, so `start_idx[array]` goes through
`ndarray.__index__` and raises `TypeError` unless the selector has exactly one
element; likewise the slice bound `end` must be a one-element array. -/
def getReducedIndexWith
    (gsei : List Nat → Option (List Nat × List Int × List Nat × List Nat))
    (ik : List Nat) (key : Nat) (sl : PySlice) : Option (List Nat) :=
  (applyPySlice (whereEq ik 0) sl).bind (fun dataEntries =>
    if key = 0 then some dataEntries
    else
      (gsei (whereEq ik key)).bind (fun r =>
        let index := whereEq ik key
        let startIdx := r.1
        let endIdx := r.2.1
        let endEntry := r.2.2.2
        (dataEntries.head?).bind (fun d0 =>
          ((whereIdx index (fun v => v < d0)).getLast?).bind (fun jv =>
            let val := index.getD jv 0
            let ms := whereIdx endEntry (fun v => v == val)
            (if ms.length = 1 then startIdx.get? (ms.headD 0) else none).bind
              (fun startPos =>
                (dataEntries.getLast?).bind (fun dL =>
                  ((whereIdx index (fun v => v > dL)).head?).bind (fun jv2 =>
                    let val2 := index.getD jv2 0
                    let ends := (whereIdx endEntry (fun v => v == val2)).map
                      (fun i => endIdx.getD i 0 + 1)
                    if ends.length = 1 then
                      applyPySlice index ⟨some (startPos : Int), some (ends.headD 0), none⟩
                    else none)))))))

/-- `DataWithDarksAndFlats.__get_reduced_index` as the running code has it:
its segmenter call raises `AttributeError` (name mangling, see
`getStartEndIdxMangled`), so for `key != 0` it always raises. -/
def getReducedIndex (ik : List Nat) (key : Nat) (sl : PySlice) : Option (List Nat) :=
  getReducedIndexWith getStartEndIdxMangled ik key sl

/-- `__get_reduced_index` as it would execute had the segmenter call resolved
to the `_get_start_end_idx` method actually defined on the class. -/
def getReducedIndexPatched (ik : List Nat) (key : Nat) (sl : PySlice) : Option (List Nat) :=
  getReducedIndexWith getStartEndIdx ik key sl

/-- `DataWithDarksAndFlats.get_index(key, full)` together with
`__get_preview_index`: with `full=True` the positions of `key` in the image
key; otherwise the preview slice list for the projection dimension is looked
up and `__get_reduced_index` is tried, any exception falling back to the full
answer (`preview` is the parent data object's per-dimension preview slice
list, `none` when previewing is not configured). -/
def getIndex (ik : List Nat) (preview : Option (List PySlice)) (projDim : Nat)
    (key : Nat) (full : Bool) : List Nat :=
  if full then whereEq ik key
  else
    match preview.bind (fun sls => sls.get? projDim) with
    | none => whereEq ik key
    | some sl => (getReducedIndex ik key sl).getD (whereEq ik key)

/-- Assignment `arr[s:e3] = v` on an integer array (scalar broadcast). -/
def sliceAssign (l : List Nat) (s e3 v : Nat) : List Nat :=
  l.mapIdx (fun p x => if s ≤ p ∧ p < e3 then v else x)

/-- `ImageKey.__ignore_image_key_entries(ignore)`:

    a, a, start, end = self._get_start_end_idx(self.get_index(1))
    if not isinstance(ignore, list):
        ignore = [ignore]
    for batch in ignore:
        self.image_key[start[batch-1]:end[batch-1]+1] = 3

The unpacking discards the index components; `start`/`end` are the run start
and end position values.  Returns the updated image key. -/
def ignoreImageKeyEntries (ik : List Nat) (preview : Option (List PySlice))
    (projDim : Nat) (ignore : List Nat) : Option (List Nat) :=
  (getStartEndIdx (getIndex ik preview projDim 1 false)).bind (fun r =>
    let startEntry := r.2.2.1
    let endEntry := r.2.2.2
    ignore.foldlM
      (fun (ikAcc : List Nat) (batch : Nat) =>
        (npGet startEntry ((batch : Int) - 1)).bind (fun s =>
          (npGet endEntry ((batch : Int) - 1)).map (fun e =>
            sliceAssign ikAcc s (e + 1) 3)))
      ik)

/-- `DataWithDarksAndFlats.get_dark_flat_slice_list()`:

    slice_list = self.data_obj._preview._get_preview_slice_list()
    remove_dim = self.data_obj.find_axis_label_dimension('rotation_angle')
    slice_list[remove_dim] = slice(None)
    if len(slice_list) > 3:
        idx = np.arange(0, len(slice_list))
        detX = ...('detector_x'); detY = ...('detector_y')
        remove = set(idx).difference(set([remove_dim, detX, detY]))
        for dim in sorted(list(remove), reverse=True):
            del slice_list[dim]
    return slice_list

`sorted(..., reverse=True)` of the removed dimension set is the descending
order of `(range n).filter (not kept)`. -/
def getDarkFlatSliceList (sliceList : List PySlice) (rotDim detX detY : Nat) :
    Option (List PySlice) :=
  if rotDim < sliceList.length then
    let sl := sliceList.set rotDim sliceAll
    if 3 < sl.length then
      let removeDims :=
        ((List.range sl.length).filter (fun d => !(d == rotDim || d == detX || d == detY))).reverse
      some (removeDims.foldl List.eraseIdx sl)
    else some sl
  else none

/-- The entries of `l` kept at the positions satisfying `p`, in ascending
position order (used to characterise `getDarkFlatSliceList`). -/
def pickIdx {α : Type} (l : List α) (p : Nat → Bool) : List α :=
  ((List.range l.length).filter p).filterMap l.get?

/-- An n-dimensional numpy array: a shape and a value function on row-major
multi-indices (only indices valid for the shape are ever relevant); values are
modelled exactly in `ℚ`. -/
structure NDArr where
  shape : List Nat
  val : List Nat → ℚ

/-- Number of elements (`ndarray.size`). -/
def NDArr.size (a : NDArr) : Nat :=
  a.shape.prod

/-- Elementwise multiplication by a Python scalar (`arr * c`). -/
def smul (c : ℚ) (a : NDArr) : NDArr :=
  ⟨a.shape, fun ix => c * a.val ix⟩

/-- `astype(np.float32)`: a cast into a floating representation, the identity
on the exact `ℚ` values of this model. -/
def astypeFloat32 (a : NDArr) : NDArr :=
  a

/-- `ix` with entry `k` replaced by `v` (total, like `List.set`). -/
def setAt (ix : List Nat) (k v : Nat) : List Nat :=
  ix.set k v

/-- Fancy indexing along one axis: `arr[(full, ..., positions, ..., full)]`
with the integer array `positions` at axis `k` (each position must be in
range, else numpy raises). -/
def fancySelect (a : NDArr) (k : Nat) (ps : List Nat) : Option NDArr :=
  if k < a.shape.length ∧ ps.all (fun p => p < a.shape.getD k 0) then
    some ⟨a.shape.set k ps.length,
          fun ix => a.val (setAt ix k (ps.getD (ix.getD k 0) 0))⟩
  else none

/-- Basic slicing `arr[tuple(slices)]`: one slice per leading dimension
(missing trailing entries act as select-all, more slices than dimensions is an
`IndexError`).  Each dimension `d` keeps the positions `sliceIndices` selects. -/
def applySlices (a : NDArr) (sls : List PySlice) : Option NDArr :=
  if sls.length ≤ a.shape.length then
    ((List.range a.shape.length).mapM
        (fun d => sliceIndices (a.shape.getD d 0) (sls.getD d sliceAll))).map
      (fun posLists =>
        ⟨posLists.map List.length,
         fun ix => a.val ((List.range a.shape.length).map
           (fun d => (posLists.getD d []).getD (ix.getD d 0) 0))⟩)
  else none

/-- `ix` with `v` inserted at position `k`. -/
def insertAt (k v : Nat) (ix : List Nat) : List Nat :=
  ix.take k ++ v :: ix.drop k

/-- `arr.mean(axis=k)`: the mean across axis `k` (an out-of-range axis raises). -/
def meanAxis (k : Nat) (a : NDArr) : Option NDArr :=
  if k < a.shape.length then
    some ⟨a.shape.eraseIdx k,
          fun ix =>
            (∑ j ∈ Finset.range (a.shape.getD k 0), a.val (insertAt k j ix)) /
              (a.shape.getD k 0)⟩
  else none

/-- `arr[None]` (numpy newaxis): prepend a length-1 dimension. -/
def expandDims (a : NDArr) : NDArr :=
  ⟨1 :: a.shape, fun ix => a.val ix.tail⟩

/-- Python truthiness `bool(arr)` of a numpy array: a one-element array is
truthy iff its element is nonzero, an empty array is falsy, and any larger
array raises `ValueError` (`none`). -/
def pyTruth (a : NDArr) : Option Bool :=
  if a.size = 1 then some (decide (a.val (a.shape.map (fun _ => 0)) ≠ 0))
  else if a.size = 0 then some false
  else none

/-- The state of a `DataWithDarksAndFlats` view (fields of `__init__` plus the
relevant surroundings: the parent data object's preview slice list and axis
label lookups, and the `"dark"`/`"flat"` entries of the metadata store).
`flatUpdated`/`darkUpdated` start as Python `False`, modelled `none`. -/
structure DFState where
  data : NDArr
  imageKey : List Nat
  projDim : Nat
  fscale : ℚ
  dscale : ℚ
  flatUpdated : Option NDArr
  darkUpdated : Option NDArr
  darkFlatSliceList : Option (List PySlice)
  preview : Option (List PySlice)
  rotDim : Nat
  metaDark : Option NDArr
  metaFlat : Option NDArr

/-- `set_flat_scale(fscale)` (`float` coercion is the identity on `ℚ`). -/
def setFlatScale (st : DFState) (c : ℚ) : DFState :=
  { st with fscale := c }

/-- `set_dark_scale(dscale)`. -/
def setDarkScale (st : DFState) (c : ℚ) : DFState :=
  { st with dscale := c }

/-- `DataWithDarksAndFlats.__get_data(key)`:

    index = [slice(None)]*self.nDims
    index[self.proj_dim] = self.get_index(key)
    data = self.data[tuple(index)]
    sl = list(copy.deepcopy(self.dark_flat_slice_list))
    if len(data.shape) is 2:
        rot_dim = self.data_obj.find_axis_label_dimension('rotation_angle')
        del sl[rot_dim]
    return data[sl]

(`self.nDims` equals the rank of the physical array; an unset
`dark_flat_slice_list` makes `list(copy.deepcopy(None))` raise.) -/
def getData (st : DFState) (key : Nat) : Option NDArr :=
  if st.projDim < st.data.shape.length then
    (fancySelect st.data st.projDim
        (getIndex st.imageKey st.preview st.projDim key false)).bind (fun data1 =>
      (st.darkFlatSliceList).bind (fun sl0 =>
        (if data1.shape.length = 2 then
            if st.rotDim < sl0.length then some (sl0.eraseIdx st.rotDim) else none
          else some sl0).bind (fun sl => applySlices data1 sl)))
  else none

/-- `dark_image_key_data()`: `self.__get_data(2)*self.dscale`. -/
def darkImageKeyData (st : DFState) : Option NDArr :=
  (getData st 2).map (smul st.dscale)

/-- `flat_image_key_data()`: `self.__get_data(1)*self.fscale`. -/
def flatImageKeyData (st : DFState) : Option NDArr :=
  (getData st 1).map (smul st.fscale)

/-- `ImageKey.dark()`: `self.dark_updated if self.dark_updated else
self.dark_image_key_data()` — the conditional first evaluates the truth value
of the stored override array. -/
def imageKeyDark (st : DFState) : Option NDArr :=
  match st.darkUpdated with
  | none => darkImageKeyData st
  | some x => (pyTruth x).bind (fun b => if b then some x else darkImageKeyData st)

/-- `ImageKey.flat()`. -/
def imageKeyFlat (st : DFState) : Option NDArr :=
  match st.flatUpdated with
  | none => flatImageKeyData st
  | some x => (pyTruth x).bind (fun b => if b then some x else flatImageKeyData st)

/-- `DataWithDarksAndFlats._calc_mean(data)`:
`data if len(data.shape) is 2 else data.mean(self.proj_dim).astype(np.float32)`. -/
def calcMean (projDim : Nat) (a : NDArr) : Option NDArr :=
  if a.shape.length = 2 then some a
  else (meanAxis projDim a).map astypeFloat32

/-- `dark_mean()`: `self._calc_mean(self.dark())` for the embedded-key view. -/
def darkMean (st : DFState) : Option NDArr :=
  (imageKeyDark st).bind (calcMean st.projDim)

/-- `flat_mean()`: `self._calc_mean(self.flat())` for the embedded-key view. -/
def flatMean (st : DFState) : Option NDArr :=
  (imageKeyFlat st).bind (calcMean st.projDim)

/-- `update_dark(data)`: stores the override, resets the dark scale to 1 and
publishes `self._calc_mean(data)` to the metadata store under `"dark"`. -/
def updateDark (st : DFState) (x : NDArr) : Option DFState :=
  (calcMean st.projDim x).map (fun m =>
    { st with darkUpdated := some x, dscale := 1, metaDark := some m })

/-- `update_flat(data)`. -/
def updateFlat (st : DFState) (x : NDArr) : Option DFState :=
  (calcMean st.projDim x).map (fun m =>
    { st with flatUpdated := some x, fscale := 1, metaFlat := some m })

/-- Extra state of the `NoImageKey` (external-reference) view: separate dark
and flat arrays, each optionally label-bearing (`dark_image_key`/`flat_image_key`
are Python `False` or a label array), and the original image key that
`dark()`/`flat()` temporarily swap back in. -/
structure NKState where
  base : DFState
  darkPath : Option NDArr
  flatPath : Option NDArr
  darkIK : Option (List Nat)
  flatIK : Option (List Nat)
  origImageKey : List Nat

/-- The non-override part of `NoImageKey.dark()`: the label-bearing branch
swaps `self.image_key` for the dark label array around `dark_image_key_data()`;
otherwise `self.dark_path[self.dark_flat_slice_list]*self.dscale` (an unset
path raises; an unset slice list is `dark_path[None]`, a numpy newaxis). -/
def nkDarkRest (st : NKState) : Option NDArr :=
  match st.darkIK with
  | some ikArr => darkImageKeyData { st.base with imageKey := ikArr }
  | none =>
    (st.darkPath).bind (fun p =>
      match st.base.darkFlatSliceList with
      | none => some (smul st.base.dscale (expandDims p))
      | some sl => (applySlices p sl).map (smul st.base.dscale))

/-- The non-override part of `NoImageKey.flat()`. -/
def nkFlatRest (st : NKState) : Option NDArr :=
  match st.flatIK with
  | some ikArr => flatImageKeyData { st.base with imageKey := ikArr }
  | none =>
    (st.flatPath).bind (fun p =>
      match st.base.darkFlatSliceList with
      | none => some (smul st.base.fscale (expandDims p))
      | some sl => (applySlices p sl).map (smul st.base.fscale))

/-- `NoImageKey.dark()`:

    if self.dark_updated:
        return self.dark_updated
    ...

(truthiness of the override is evaluated first). -/
def noImageKeyDark (st : NKState) : Option NDArr :=
  match st.base.darkUpdated with
  | none => nkDarkRest st
  | some x => (pyTruth x).bind (fun b => if b then some x else nkDarkRest st)

/-- `NoImageKey.flat()`:

    if self.flat_updated:
        return self.flat_updated()
    ...

A truthy override is *called* — `self.flat_updated()` — and a numpy array is
not callable, so that branch raises `TypeError` (`none`). -/
def noImageKeyFlat (st : NKState) : Option NDArr :=
  match st.base.flatUpdated with
  | none => nkFlatRest st
  | some x => (pyTruth x).bind (fun b => if b then none else nkFlatRest st)

/-- A 4 x 2 x 2 physical array with two flat frames (positions 0, 1) followed
by two data frames (positions 2, 3); frame `i` has constant value `i + 1`. -/
def arrEx : NDArr :=
  ⟨[4, 2, 2], fun ix => (ix.getD 0 0 : ℚ) + 1⟩

/-- An embedded-key view state over `arrEx` with the calibration slice list
already cached (select-all in all three dimensions) and no preview. -/
def stEx : DFState :=
  { data := arrEx
    imageKey := [1, 1, 0, 0]
    projDim := 0
    fscale := 1
    dscale := 1
    flatUpdated := none
    darkUpdated := none
    darkFlatSliceList := some [sliceAll, sliceAll, sliceAll]
    preview := none
    rotDim := 0
    metaDark := none
    metaFlat := none }

/-- A 2 x 2 frame of ones. -/
def arr22 : NDArr :=
  ⟨[2, 2], fun _ => 1⟩

/-- A 1 x 1 frame holding the single value 5. -/
def arr11 : NDArr :=
  ⟨[1, 1], fun _ => 5⟩

/-- A 1-dimensional array with values 1, 2. -/
def arr1d : NDArr :=
  ⟨[2], fun ix => (ix.getD 0 0 : ℚ) + 1⟩

/-- An external-reference view state over the same base, with separate dark
and flat arrays and no label arrays on them. -/
def stNKEx : NKState :=
  { base := stEx
    darkPath := some arr22
    flatPath := some arr22
    darkIK := none
    flatIK := none
    origImageKey := [1, 1, 0, 0] }

/-- The state `update_dark(arr22)` produces from `stEx`. -/
def stExDark : DFState :=
  { stEx with darkUpdated := some arr22, dscale := 1, metaDark := some arr22 }

/-- The 0-dimensional mean `_calc_mean` computes for the 1-dimensional frame
`arr1d` with projection axis 0. -/
def meanArr1d : NDArr :=
  ⟨arr1d.shape.eraseIdx 0,
   fun ix =>
     (∑ j ∈ Finset.range (arr1d.shape.getD 0 0), arr1d.val (insertAt 0 j ix)) /
       (arr1d.shape.getD 0 0)⟩

/-- The state `update_dark(arr1d)` produces from `stEx`. -/
def stExDark1d : DFState :=
  { stEx with darkUpdated := some arr1d, dscale := 1, metaDark := some meanArr1d }

/-- `update_dark` on the external-reference view (inherited, acting on the
shared base fields). -/
def nkUpdateDark (st : NKState) (x : NDArr) : Option NKState :=
  (updateDark st.base x).map (fun b => { st with base := b })

/-- `update_flat` on the external-reference view. -/
def nkUpdateFlat (st : NKState) (x : NDArr) : Option NKState :=
  (updateFlat st.base x).map (fun b => { st with base := b })

/-! ### Basic lemmas about the index machinery -/

theorem mem_whereIdx {α : Type} [Inhabited α] {l : List α} {p : α → Bool} {i : Nat} :
    i ∈ whereIdx l p ↔ i < l.length ∧ p (l.getD i default) := by
  simp [whereIdx, List.mem_filter, List.mem_range]

theorem mem_whereEq {ik : List Nat} {key p : Nat} :
    p ∈ whereEq ik key ↔ p < ik.length ∧ ik.getD p 0 = key := by
  simp [whereEq, mem_whereIdx]

theorem whereIdx_pairwise {α : Type} [Inhabited α] (l : List α) (p : α → Bool) :
    (whereIdx l p).Pairwise (· < ·) :=
  (List.pairwise_lt_range _).filter _

theorem whereIdx_chain {α : Type} [Inhabited α] (l : List α) (p : α → Bool) :
    (whereIdx l p).Chain' (· < ·) :=
  (whereIdx_pairwise l p).chain'

theorem whereEq_chain (ik : List Nat) (key : Nat) :
    (whereEq ik key).Chain' (· < ·) :=
  whereIdx_chain _ _

theorem whereIdx_cons {α : Type} [Inhabited α] (a : α) (l : List α) (p : α → Bool) :
    whereIdx (a :: l) p =
      (if p a then [0] else []) ++ (whereIdx l p).map (· + 1) := by
  unfold whereIdx
  rw [show (a :: l).length = l.length + 1 from rfl, List.range_succ_eq_map,
    List.filter_cons]
  simp only [List.getD_cons_zero]
  rw [List.filter_map]
  have h : ((fun i => p ((a :: l).getD i default)) ∘ Nat.succ) =
      fun i => p (l.getD i default) := by
    funext i
    simp [Function.comp, List.getD_cons_succ]
  rw [h]
  have h2 : List.map Nat.succ (List.filter (fun i => p (l.getD i default)) (List.range l.length)) =
      List.map (· + 1) (List.filter (fun i => p (l.getD i default)) (List.range l.length)) := by
    simp [Nat.succ_eq_add_one]
  by_cases hpa : p a <;> simp [hpa, h2]

theorem atIdxs_shift (a : Nat) (l : List Nat) (is : List Nat) :
    atIdxs (a :: l) (is.map (· + 1)) = atIdxs l is := by
  unfold atIdxs
  rw [List.map_map]
  apply List.map_congr_left
  intro i _
  simp [Function.comp, List.getD_cons_succ]

theorem length_npDiff (l : List Nat) :
    (npDiff l).length = min l.length (l.length - 1) := by
  rw [npDiff, List.length_zipWith, List.length_tail]

theorem bks_lt (l : List Nat) : ∀ i ∈ bks l, i + 1 < l.length := by
  intro i hi
  have h := mem_whereIdx.mp hi
  have hlen := length_npDiff l
  omega

theorem filterMap_eq_map_of {α β : Type} (js : List α) (f : α → Option β) (g : α → β)
    (h : ∀ j ∈ js, f j = some (g j)) : js.filterMap f = js.map g := by
  induction js with
  | nil => rfl
  | cons a t ih =>
    rw [List.filterMap_cons, List.map_cons, h a (List.mem_cons_self a t),
      ih (fun j hj => h j (List.mem_cons_of_mem a hj))]

theorem npGet_ofNat {α : Type} (l : List α) (i : Nat) (hil : i < l.length) :
    npGet l (Int.ofNat i) = l.get? i := by
  rw [show Int.ofNat i = (i : Int) from rfl]
  simp only [npGet]
  rw [if_neg (show ¬((i : Int) < 0) by omega)]
  rw [if_pos (show (0 : Int) ≤ (i : Int) ∧ (i : Int) < (l.length : Int) by
    constructor <;> omega)]
  rw [show ((i : Int)).toNat = i from rfl]

theorem runsSpec_cons_head (x : Nat) (xs : List Nat) :
    ∃ e rs, runsSpec (x :: xs) = (x, e) :: rs := by
  cases h : runsSpec xs with
  | nil => exact ⟨x, [], by simp [runsSpec, h]⟩
  | cons p rs =>
    obtain ⟨s, e⟩ := p
    by_cases hs : s = x + 1
    · exact ⟨e, rs, by simp [runsSpec, h, hs]⟩
    · exact ⟨x, (s, e) :: rs, by simp [runsSpec, h, hs]⟩

theorem fancyIdx_natCast {α : Type} (l : List α) (is : List Nat) (d : α)
    (h : ∀ i ∈ is, i < l.length) :
    fancyIdx l (is.map Int.ofNat) = some (is.map (fun i => l.getD i d)) := by
  have hget : ∀ i ∈ is, npGet l (Int.ofNat i) = some (l.getD i d) := by
    intro i hi
    have hil := h i hi
    rw [npGet_ofNat l i hil, List.get?_eq_getElem?, List.getElem?_eq_getElem hil,
      List.getD_eq_getElem?_getD, List.getElem?_eq_getElem hil]
    rfl
  unfold fancyIdx
  rw [if_pos]
  · congr 1
    rw [List.filterMap_map]
    exact filterMap_eq_map_of is _ _ (fun i hi => hget i hi)
  · rw [List.all_eq_true]
    intro j hj
    obtain ⟨i, hi, rfl⟩ := List.mem_map.mp hj
    rw [hget i hi]
    rfl

theorem ofNat_cast (n : Nat) : Int.ofNat n = (n : Int) := rfl

theorem endI_eq (l : List Nat) (hn : 1 ≤ l.length) :
    ((startL l).tail.map Int.ofNat ++ [(l.length : Int)]).map (fun x => x - 1) =
      (endLN l).map Int.ofNat := by
  rw [startL, List.tail_cons, endLN, List.map_append, List.map_append, List.map_map,
    List.map_map]
  congr 1
  · apply List.map_congr_left
    intro j _
    show Int.ofNat (j + 1) - 1 = Int.ofNat j
    simp only [ofNat_cast]
    omega
  · show [(l.length : Int) - 1] = [Int.ofNat (l.length - 1)]
    congr 1
    simp only [ofNat_cast]
    omega

theorem getStartEndIdx_eq (l : List Nat) (hl : l ≠ []) :
    getStartEndIdx l =
      some (startL l, (endLN l).map Int.ofNat, atIdxs l (startL l), atIdxs l (endLN l)) := by
  have hn : 1 ≤ l.length := List.length_pos.mpr hl
  have hstartb : ∀ i ∈ startL l, i < l.length := by
    intro i hi
    rcases List.mem_cons.mp hi with h0 | hm
    · omega
    · obtain ⟨j, hj, rfl⟩ := List.mem_map.mp hm
      exact bks_lt l j hj
  have hendb : ∀ i ∈ endLN l, i < l.length := by
    intro i hi
    rcases List.mem_append.mp hi with hm | hm
    · have := bks_lt l i hm
      omega
    · have : i = l.length - 1 := List.mem_singleton.mp hm
      omega
  have hstart := fancyIdx_natCast l (startL l) 0 hstartb
  have hend := fancyIdx_natCast l (endLN l) 0 hendb
  simp only [getStartEndIdx]
  rw [show (0 :: (whereIdx (npDiff l) (fun d => d > 1)).map (· + 1)) = startL l from rfl]
  rw [endI_eq l hn, hstart, hend]
  rfl

theorem atIdxs_cons_zero (l : List Nat) (is : List Nat) :
    atIdxs l (0 :: is) = l.getD 0 0 :: atIdxs l is :=
  rfl

theorem atIdxs_endLN_ne_nil (l : List Nat) : atIdxs l (endLN l) ≠ [] := by
  simp [atIdxs, endLN]

theorem zip_runsSpec :
    ∀ l : List Nat, l.Chain' (· < ·) → l ≠ [] →
      (atIdxs l (startL l)).zip (atIdxs l (endLN l)) = runsSpec l
  | [], _, h => absurd rfl h
  | [x], _, _ => rfl
  | x :: y :: t, hs, _ => by
    have hxs : (y :: t) ≠ [] := by simp
    have hxy : x < y := List.chain'_cons.mp hs |>.1
    have hst : (y :: t).Chain' (· < ·) := List.chain'_cons.mp hs |>.2
    have ih := zip_runsSpec (y :: t) hst hxs
    have hdiff : npDiff (x :: y :: t) = ((y : Int) - (x : Int)) :: npDiff (y :: t) := rfl
    have hlen : (x :: y :: t).length - 1 = (y :: t).length := rfl
    by_cases hcase : y = x + 1
    · -- no break after x: x joins the first run of y :: t
      have hbks : bks (x :: y :: t) = (bks (y :: t)).map (· + 1) := by
        have hno : ¬((y : Int) - (x : Int) > 1) := by omega
        rw [bks, hdiff, whereIdx_cons]
        simp [hno]
        rfl
      have hSE : atIdxs (x :: y :: t) (startL (x :: y :: t)) =
          x :: atIdxs (y :: t) ((bks (y :: t)).map (· + 1)) := by
        rw [startL, hbks, atIdxs_cons_zero, atIdxs_shift]
        rfl
      have hEE : atIdxs (x :: y :: t) (endLN (x :: y :: t)) =
          atIdxs (y :: t) (endLN (y :: t)) := by
        rw [endLN, hbks, hlen, endLN]
        have : (bks (y :: t)).map (· + 1) ++ [(y :: t).length] =
            ((bks (y :: t)) ++ [(y :: t).length - 1]).map (· + 1) := by
          rw [List.map_append]
          simp
        rw [this, atIdxs_shift]
      have hSExs : atIdxs (y :: t) (startL (y :: t)) =
          y :: atIdxs (y :: t) ((bks (y :: t)).map (· + 1)) := by
        rw [startL, atIdxs_cons_zero]
        rfl
      rw [hSE, hEE]
      rw [hSExs] at ih
      cases hEExs : atIdxs (y :: t) (endLN (y :: t)) with
      | nil => exact absurd hEExs (atIdxs_endLN_ne_nil (y :: t))
      | cons e0 erest =>
        rw [hEExs] at ih
        rw [List.zip_cons_cons] at ih ⊢
        show (x, e0) :: _ = runsSpec (x :: y :: t)
        rw [show runsSpec (x :: y :: t) =
            (match runsSpec (y :: t) with
             | [] => [(x, x)]
             | (s, e) :: rs => if s = x + 1 then (x, e) :: rs else (x, x) :: (s, e) :: rs)
          from rfl]
        rw [← ih]
        simp [hcase]
    · -- a break after x: x is a singleton run
      have hbks : bks (x :: y :: t) = 0 :: (bks (y :: t)).map (· + 1) := by
        have hyes : (y : Int) - (x : Int) > 1 := by omega
        rw [bks, hdiff, whereIdx_cons]
        simp [hyes]
        rfl
      have hSE : atIdxs (x :: y :: t) (startL (x :: y :: t)) =
          x :: atIdxs (y :: t) (startL (y :: t)) := by
      -- startL (x::y::t) = 0 :: (0 :: bks.map(+1)).map(+1) = 0 :: (startL (y::t)).map(+1)
        rw [startL, hbks, atIdxs_cons_zero]
        rw [show ((0 : Nat) :: (bks (y :: t)).map (· + 1)) = startL (y :: t) from rfl]
        rw [atIdxs_shift]
        rfl
      have hEE : atIdxs (x :: y :: t) (endLN (x :: y :: t)) =
          x :: atIdxs (y :: t) (endLN (y :: t)) := by
        rw [endLN, hbks, hlen]
        rw [show ((0 :: (bks (y :: t)).map (· + 1)) ++ [(y :: t).length]) =
            0 :: ((bks (y :: t)).map (· + 1) ++ [(y :: t).length]) from rfl]
        rw [atIdxs_cons_zero]
        have : (bks (y :: t)).map (· + 1) ++ [(y :: t).length] =
            ((bks (y :: t)) ++ [(y :: t).length - 1]).map (· + 1) := by
          rw [List.map_append]
          simp
        rw [this, atIdxs_shift, endLN]
        rfl
      rw [hSE, hEE, List.zip_cons_cons, ih]
      obtain ⟨e, rs, hrx⟩ := runsSpec_cons_head y t
      rw [show runsSpec (x :: y :: t) =
          (match runsSpec (y :: t) with
           | [] => [(x, x)]
           | (s, e) :: rs => if s = x + 1 then (x, e) :: rs else (x, x) :: (s, e) :: rs)
        from rfl]
      rw [hrx]
      simp [hcase]

theorem length_atIdxs_startL (l : List Nat) :
    (atIdxs l (startL l)).length = (bks l).length + 1 := by
  simp [atIdxs, startL]

theorem length_atIdxs_endLN (l : List Nat) :
    (atIdxs l (endLN l)).length = (bks l).length + 1 := by
  simp [atIdxs, endLN]

theorem npDiff_getD (l : List Nat) (i : Nat) (h : i + 1 < l.length) :
    (npDiff l).getD i 0 = (l.getD (i + 1) 0 : Int) - (l.getD i 0 : Int) := by
  have hi0 : i < l.length := by omega
  have hti : i < l.tail.length := by
    rw [List.length_tail]
    omega
  rw [List.getD_eq_getElem?_getD]
  rw [show npDiff l = List.zipWith (fun (a b : Nat) => (b : Int) - (a : Int)) l l.tail
    from rfl]
  rw [List.getElem?_zipWith, List.getElem?_eq_getElem hi0, List.getElem?_eq_getElem hti]
  rw [List.getElem_tail]
  rw [List.getD_eq_getElem?_getD, List.getElem?_eq_getElem h]
  rw [List.getD_eq_getElem?_getD, List.getElem?_eq_getElem hi0]
  rfl

theorem mem_startL_succ (l : List Nat) (i : Nat) :
    i + 1 ∈ startL l ↔ i + 1 < l.length ∧ l.getD i 0 + 1 < l.getD (i + 1) 0 := by
  have hlen := length_npDiff l
  constructor
  · intro hm
    rcases List.mem_cons.mp hm with h0 | hm1
    · omega
    · obtain ⟨j, hj, hji⟩ := List.mem_map.mp hm1
      have hj' := mem_whereIdx.mp hj
      obtain rfl : i = j := by omega
      have hb : i + 1 < l.length := by omega
      have hd := hj'.2
      rw [show (default : Int) = (0 : Int) from rfl] at hd
      rw [npDiff_getD l i hb] at hd
      have hgt : (1 : Int) < (l.getD (i + 1) 0 : Int) - (l.getD i 0 : Int) :=
        of_decide_eq_true hd
      exact ⟨hb, by omega⟩
  · rintro ⟨hb, hgt⟩
    apply List.mem_cons.mpr
    right
    apply List.mem_map.mpr
    refine ⟨i, ?_, rfl⟩
    apply mem_whereIdx.mpr
    refine ⟨by omega, ?_⟩
    rw [show (default : Int) = (0 : Int) from rfl, npDiff_getD l i hb]
    exact decide_eq_true (by omega)

theorem getLastD_getD (l : List Nat) (hl : l ≠ []) :
    l.getD (l.length - 1) 0 = l.getLastD 0 := by
  induction l with
  | nil => exact absurd rfl hl
  | cons a t ih =>
    cases t with
    | nil => rfl
    | cons b u =>
      rw [List.getLastD_cons]
      have h1 : (a :: b :: u).length - 1 = (b :: u).length - 1 + 1 := by
        simp
      rw [h1, List.getD_cons_succ]
      have := ih (by simp)
      rw [this]
      cases u <;> rfl

theorem atIdxs_endLN_getLast (l : List Nat) (hl : l ≠ []) :
    (atIdxs l (endLN l)).getLast? = l.getLast? := by
  rw [atIdxs, endLN, List.map_append]
  rw [List.getLast?_append_of_ne_nil _ (by simp)]
  show some (l.getD (l.length - 1) 0) = l.getLast?
  rw [getLastD_getD l hl, List.getLastD_eq_getLast?]
  cases hg : l.getLast? with
  | none => exact absurd (List.getLast?_eq_none_iff.mp hg) hl
  | some a => rfl

theorem runsSpec_unfold (x : Nat) (xs : List Nat) :
    runsSpec (x :: xs) =
      (match runsSpec xs with
       | [] => [(x, x)]
       | (s, e) :: rs => if s = x + 1 then (x, e) :: rs else (x, x) :: (s, e) :: rs) :=
  rfl

theorem runsSpec_interval :
    ∀ (l : List Nat) (s e : Nat), (s, e) ∈ runsSpec l → ∀ v, s ≤ v → v ≤ e → v ∈ l
  | [], s, e, hmem => by simp [runsSpec] at hmem
  | x :: xs, s, e, hmem => by
    intro v hsv hve
    cases hx : runsSpec xs with
    | nil =>
      have hrw : runsSpec (x :: xs) = [(x, x)] := by rw [runsSpec_unfold, hx]
      rw [hrw] at hmem
      simp only [List.mem_singleton, Prod.mk.injEq] at hmem
      obtain ⟨h1, h2⟩ := hmem
      have hvx : v = x := by omega
      rw [hvx]
      exact List.mem_cons_self _ _
    | cons p rs =>
      obtain ⟨s1, e1⟩ := p
      by_cases hc : s1 = x + 1
      · have hrw : runsSpec (x :: xs) = (x, e1) :: rs := by
          rw [runsSpec_unfold, hx]
          simp [hc]
        rw [hrw] at hmem
        rcases List.mem_cons.mp hmem with hh | ht
        · rw [Prod.mk.injEq] at hh
          obtain ⟨h1, h2⟩ := hh
          by_cases hvx : v = x
          · rw [hvx]; exact List.mem_cons_self _ _
          · have hv1 : s1 ≤ v := by omega
            have hve1 : v ≤ e1 := by omega
            have hmem1 : (s1, e1) ∈ runsSpec xs := by
              rw [hx]; exact List.mem_cons_self _ _
            exact List.mem_cons_of_mem x (runsSpec_interval xs s1 e1 hmem1 v hv1 hve1)
        · have hmem1 : (s, e) ∈ runsSpec xs := by
            rw [hx]; exact List.mem_cons_of_mem _ ht
          exact List.mem_cons_of_mem x (runsSpec_interval xs s e hmem1 v hsv hve)
      · have hrw : runsSpec (x :: xs) = (x, x) :: (s1, e1) :: rs := by
          rw [runsSpec_unfold, hx]
          simp [hc]
        rw [hrw] at hmem
        rcases List.mem_cons.mp hmem with hh | ht
        · rw [Prod.mk.injEq] at hh
          obtain ⟨h1, h2⟩ := hh
          have hvx : v = x := by omega
          rw [hvx]
          exact List.mem_cons_self _ _
        · have hmem1 : (s, e) ∈ runsSpec xs := by rw [hx]; exact ht
          exact List.mem_cons_of_mem x (runsSpec_interval xs s e hmem1 v hsv hve)

theorem runsSpec_single :
    ∀ l : List Nat, l.Chain' (fun a b => b = a + 1) → l ≠ [] →
      runsSpec l = [(l.headD 0, l.getLastD 0)]
  | [], _, h => absurd rfl h
  | [x], _, _ => rfl
  | x :: y :: t, h, _ => by
    have h1 := List.chain'_cons.mp h
    have hy : y = x + 1 := h1.1
    have hrec := runsSpec_single (y :: t) h1.2 (by simp)
    rw [runsSpec_unfold, hrec]
    simp only [List.headD_cons]
    rw [if_pos hy]
    simp [List.getLastD_cons]

theorem getIndex_full (ik : List Nat) (pv : Option (List PySlice)) (pd key : Nat) :
    getIndex ik pv pd key true = whereEq ik key :=
  rfl

theorem getReducedIndex_ne_zero (ik : List Nat) (key : Nat) (sl : PySlice)
    (h : key ≠ 0) : getReducedIndex ik key sl = none := by
  rw [getReducedIndex, getReducedIndexWith]
  cases applyPySlice (whereEq ik 0) sl with
  | none => rfl
  | some de =>
    rw [Option.some_bind, if_neg h]
    rfl

theorem getIndex_of_ne_zero (ik : List Nat) (pv : Option (List PySlice)) (pd key : Nat)
    (full : Bool) (h : key ≠ 0) : getIndex ik pv pd key full = whereEq ik key := by
  cases full with
  | true => rfl
  | false =>
    rw [getIndex]
    cases pv.bind (fun sls => sls.get? pd) with
    | none => rfl
    | some sl =>
      show (getReducedIndex ik key sl).getD (whereEq ik key) = whereEq ik key
      rw [getReducedIndex_ne_zero ik key sl h]
      rfl

theorem applyPySlice_subset {α : Type} {l : List α} {s : PySlice} {r : List α}
    (h : applyPySlice l s = some r) : ∀ a ∈ r, a ∈ l := by
  unfold applyPySlice at h
  cases hsi : sliceIndices l.length s with
  | none => rw [hsi] at h; exact absurd h (by simp)
  | some is =>
    rw [hsi] at h
    have h2 : is.filterMap l.get? = r := by simpa using h
    intro a ha
    rw [← h2] at ha
    obtain ⟨i, _, hget⟩ := List.mem_filterMap.mp ha
    exact List.get?_mem hget

theorem getIndex_subset (ik : List Nat) (pv : Option (List PySlice)) (pd key : Nat)
    (full : Bool) : ∀ p ∈ getIndex ik pv pd key full, p ∈ whereEq ik key := by
  cases full with
  | true => intro p hp; exact hp
  | false =>
    rw [getIndex]
    cases pv.bind (fun sls => sls.get? pd) with
    | none => intro p hp; exact hp
    | some sl =>
      by_cases hk : key = 0
      · subst hk
        show ∀ p ∈ (getReducedIndex ik 0 sl).getD (whereEq ik 0), p ∈ whereEq ik 0
        rw [getReducedIndex, getReducedIndexWith]
        cases hap : applyPySlice (whereEq ik 0) sl with
        | none => intro p hp; exact hp
        | some de =>
          intro p hp
          rw [Option.some_bind, if_pos rfl, Option.getD_some] at hp
          exact applyPySlice_subset hap p hp
      · show ∀ p ∈ (getReducedIndex ik key sl).getD (whereEq ik key), p ∈ whereEq ik key
        rw [getReducedIndex_ne_zero ik key sl hk]
        intro p hp
        exact hp

theorem getD_lt_mem (l : List Nat) (p : Nat) (hp : p < l.length) : l.getD p 0 ∈ l := by
  rw [List.getD_eq_getElem?_getD, List.getElem?_eq_getElem hp]
  exact List.getElem_mem hp

/-! ### Claim theorems -/

/-- C5: for every non-empty sorted position sequence, `_get_start_end_idx`
returns the start and end indices of the maximal contiguous runs (a break
exactly where consecutive positions differ by more than 1) together with the
position values at each run's start and end; on `[0,1,2,5,6,9]` it yields the
three runs with value pairs (0,2), (5,6), (9,9); a single contiguous block
yields exactly one run. -/
theorem claim_C5 (l : List Nat) (hne : l ≠ []) (hs : l.Chain' (· < ·)) :
    (∃ S E SE EE, getStartEndIdx l = some (S, E, SE, EE) ∧
      SE.zip EE = runsSpec l ∧
      S.head? = some 0 ∧
      (∀ i : Nat, i + 1 ∈ S ↔ i + 1 < l.length ∧ l.getD i 0 + 1 < l.getD (i + 1) 0) ∧
      (l.Chain' (fun a b => b = a + 1) → SE.zip EE = [(l.headD 0, l.getLastD 0)])) ∧
    getStartEndIdx [0, 1, 2, 5, 6, 9] =
      some ([0, 3, 5], [2, 4, 5], [0, 5, 9], [2, 6, 9]) ∧
    runsSpec [0, 1, 2, 5, 6, 9] = [(0, 2), (5, 6), (9, 9)] := by
  refine ⟨⟨startL l, (endLN l).map Int.ofNat, atIdxs l (startL l), atIdxs l (endLN l),
    getStartEndIdx_eq l hne, zip_runsSpec l hs hne, rfl,
    fun i => mem_startL_succ l i, ?_⟩, by decide, by decide⟩
  intro hblock
  rw [zip_runsSpec l hs hne, runsSpec_single l hblock hne]

/-- C5 witness: the theorem applied to the concrete sorted sequence
`[0,1,2,5,6,9]`. -/
theorem claim_C5_witness :
    (∃ S E SE EE, getStartEndIdx [0, 1, 2, 5, 6, 9] = some (S, E, SE, EE) ∧
      SE.zip EE = runsSpec [0, 1, 2, 5, 6, 9] ∧
      S.head? = some 0 ∧
      (∀ i : Nat, i + 1 ∈ S ↔ i + 1 < ([0, 1, 2, 5, 6, 9] : List Nat).length ∧
        ([0, 1, 2, 5, 6, 9] : List Nat).getD i 0 + 1 <
          ([0, 1, 2, 5, 6, 9] : List Nat).getD (i + 1) 0) ∧
      (([0, 1, 2, 5, 6, 9] : List Nat).Chain' (fun a b => b = a + 1) →
        SE.zip EE = [(([0, 1, 2, 5, 6, 9] : List Nat).headD 0,
          ([0, 1, 2, 5, 6, 9] : List Nat).getLastD 0)])) ∧
    getStartEndIdx [0, 1, 2, 5, 6, 9] =
      some ([0, 3, 5], [2, 4, 5], [0, 5, 9], [2, 6, 9]) ∧
    runsSpec [0, 1, 2, 5, 6, 9] = [(0, 2), (5, 6), (9, 9)] :=
  claim_C5 [0, 1, 2, 5, 6, 9] (by decide) (by simp [List.chain'_cons])

/-- C10: `_get_start_end_idx` raises on an empty position sequence (an
out-of-range fancy index), while on every non-empty sorted sequence it
succeeds with at least one run, the first run starting at index 0 and the last
run ending at the final element. -/
theorem claim_C10 :
    getStartEndIdx ([] : List Nat) = none ∧
    ∀ l : List Nat, l ≠ [] → l.Chain' (· < ·) →
      ∃ S E SE EE, getStartEndIdx l = some (S, E, SE, EE) ∧
        1 ≤ SE.length ∧ S.head? = some 0 ∧ EE.getLast? = l.getLast? := by
  refine ⟨rfl, fun l hne hs => ⟨startL l, (endLN l).map Int.ofNat,
    atIdxs l (startL l), atIdxs l (endLN l), getStartEndIdx_eq l hne, ?_, rfl,
    atIdxs_endLN_getLast l hne⟩⟩
  rw [length_atIdxs_startL]
  omega

/-- C10 witness: the non-empty part applied to `[3,4,8]`. -/
theorem claim_C10_witness :
    getStartEndIdx ([] : List Nat) = none ∧
    ∃ S E SE EE, getStartEndIdx [3, 4, 8] = some (S, E, SE, EE) ∧
      1 ≤ SE.length ∧ S.head? = some 0 ∧
      EE.getLast? = ([3, 4, 8] : List Nat).getLast? :=
  ⟨claim_C10.1, claim_C10.2 [3, 4, 8] (by decide) (by simp [List.chain'_cons])⟩

/-- C7: whenever the preview slice-list lookup for the projection dimension
fails (no preview configured, or the dimension is out of range),
`get_index(key, full=False)` returns exactly the `full=True` answer: every
physical position whose label equals `key`, in ascending order. -/
theorem claim_C7 (ik : List Nat) (pv : Option (List PySlice)) (pd key : Nat)
    (hfail : pv.bind (fun sls => sls.get? pd) = none) :
    getIndex ik pv pd key false = getIndex ik pv pd key true ∧
    getIndex ik pv pd key true = whereEq ik key ∧
    (∀ p, p ∈ whereEq ik key ↔ p < ik.length ∧ ik.getD p 0 = key) ∧
    (whereEq ik key).Chain' (· < ·) := by
  refine ⟨?_, rfl, fun p => mem_whereEq, whereEq_chain ik key⟩
  show (match pv.bind (fun sls => sls.get? pd) with
        | none => whereEq ik key
        | some sl => (getReducedIndex ik key sl).getD (whereEq ik key)) =
      whereEq ik key
  rw [hfail]

/-- C7 witness: a view with no preview configured. -/
theorem claim_C7_witness :
    getIndex [1, 0, 2, 0] none 0 2 false = getIndex [1, 0, 2, 0] none 0 2 true ∧
    getIndex [1, 0, 2, 0] none 0 2 true = whereEq [1, 0, 2, 0] 2 ∧
    (∀ p, p ∈ whereEq [1, 0, 2, 0] 2 ↔
      p < ([1, 0, 2, 0] : List Nat).length ∧ ([1, 0, 2, 0] : List Nat).getD p 0 = 2) ∧
    (whereEq [1, 0, 2, 0] 2).Chain' (· < ·) :=
  claim_C7 [1, 0, 2, 0] none 0 2 rfl

/-- C8: for any frame label array with labels in {0,1,2,3}, the full-dataset
position sets of the four labels are pairwise disjoint and together cover
every physical position along the projection axis. -/
theorem claim_C8 (ik : List Nat) (pv : Option (List PySlice)) (pd : Nat)
    (hlab : ∀ v ∈ ik, v < 4) :
    (∀ p k1 k2, p ∈ getIndex ik pv pd k1 true → p ∈ getIndex ik pv pd k2 true →
      k1 = k2) ∧
    (∀ p, p < ik.length ↔
      (p ∈ getIndex ik pv pd 0 true ∨ p ∈ getIndex ik pv pd 1 true ∨
       p ∈ getIndex ik pv pd 2 true ∨ p ∈ getIndex ik pv pd 3 true)) := by
  constructor
  · intro p k1 k2 h1 h2
    have e1 := (mem_whereEq.mp h1).2
    have e2 := (mem_whereEq.mp h2).2
    omega
  · intro p
    constructor
    · intro hp
      have hv : ik.getD p 0 < 4 := hlab _ (getD_lt_mem ik p hp)
      have hcases : ik.getD p 0 = 0 ∨ ik.getD p 0 = 1 ∨ ik.getD p 0 = 2 ∨
          ik.getD p 0 = 3 := by omega
      rcases hcases with h | h | h | h
      · exact Or.inl (mem_whereEq.mpr ⟨hp, h⟩)
      · exact Or.inr (Or.inl (mem_whereEq.mpr ⟨hp, h⟩))
      · exact Or.inr (Or.inr (Or.inl (mem_whereEq.mpr ⟨hp, h⟩)))
      · exact Or.inr (Or.inr (Or.inr (mem_whereEq.mpr ⟨hp, h⟩)))
    · rintro (h | h | h | h) <;> exact (mem_whereEq.mp h).1

/-- C8 witness: the partition at a concrete label array. -/
theorem claim_C8_witness :
    (∀ p k1 k2, p ∈ getIndex [1, 0, 2, 3, 0] none 0 k1 true →
      p ∈ getIndex [1, 0, 2, 3, 0] none 0 k2 true → k1 = k2) ∧
    (∀ p, p < ([1, 0, 2, 3, 0] : List Nat).length ↔
      (p ∈ getIndex [1, 0, 2, 3, 0] none 0 0 true ∨
       p ∈ getIndex [1, 0, 2, 3, 0] none 0 1 true ∨
       p ∈ getIndex [1, 0, 2, 3, 0] none 0 2 true ∨
       p ∈ getIndex [1, 0, 2, 3, 0] none 0 3 true)) :=
  claim_C8 [1, 0, 2, 3, 0] none 0 (by decide)

/-- C1: at the spec's own example — labels `flat,data,data,data,flat,dark,dark,
flat,data,data,flat` with a preview window `slice(1,3)` on the projection
dimension — `get_index(1)` does not return the bracketing flat range `[0,4]`:
the `self.__get_start_end_idx` call raises `AttributeError` (name mangling),
the bare `except` swallows it, and the full flat list `[0,4,7,10]` is returned.
Had the call resolved to `_get_start_end_idx`, the body would return `[0,4]`
exactly as the claim states. -/
theorem claim_C1 :
    getIndex [1, 0, 0, 0, 1, 2, 2, 1, 0, 0, 1]
        (some [⟨some 1, some 3, none⟩]) 0 1 false = [0, 4, 7, 10] ∧
    getReducedIndex [1, 0, 0, 0, 1, 2, 2, 1, 0, 0, 1] 1 ⟨some 1, some 3, none⟩ =
      none ∧
    getReducedIndexPatched [1, 0, 0, 0, 1, 2, 2, 1, 0, 0, 1] 1
        ⟨some 1, some 3, none⟩ = some [0, 4] ∧
    ([0, 4, 7, 10] : List Nat) ≠ [0, 4] :=
  ⟨by decide, by decide, by decide, by decide⟩

theorem getD_eq_getElem (l : List Nat) (p : Nat) (hp : p < l.length) :
    l.getD p 0 = l[p] := by
  rw [List.getD_eq_getElem?_getD, List.getElem?_eq_getElem hp]
  rfl

theorem sliceAssign_getD (l : List Nat) (s e3 v p : Nat) :
    (sliceAssign l s e3 v).getD p 0 =
      if p < l.length then (if s ≤ p ∧ p < e3 then v else l.getD p 0) else 0 := by
  by_cases hp : p < l.length
  · have hp' : p < (sliceAssign l s e3 v).length := by
      rw [sliceAssign, List.length_mapIdx]
      exact hp
    rw [if_pos hp, getD_eq_getElem _ _ hp']
    have hp2 : p < (List.mapIdx (fun q x => if s ≤ q ∧ q < e3 then v else x) l).length := by
      rw [List.length_mapIdx]
      exact hp
    show (List.mapIdx (fun q x => if s ≤ q ∧ q < e3 then v else x) l)[p] =
      if s ≤ p ∧ p < e3 then v else l.getD p 0
    rw [List.getElem_mapIdx]
    rw [getD_eq_getElem l p hp]
  · have hlen : (sliceAssign l s e3 v).length ≤ p := by
      rw [sliceAssign, List.length_mapIdx]
      omega
    rw [if_neg hp, List.getD_eq_getElem?_getD, List.getElem?_eq_none hlen]
    rfl

theorem zip_getD_eq {l1 l2 : List Nat} {rs : List (Nat × Nat)} (h : l1.zip l2 = rs)
    (hlen : l1.length = l2.length) (i : Nat) (hi : i < l1.length) :
    l1.getD i 0 = (rs.getD i (0, 0)).1 ∧ l2.getD i 0 = (rs.getD i (0, 0)).2 := by
  subst h
  have hzi : i < (l1.zip l2).length := by
    rw [List.length_zip]
    omega
  have hi2 : i < l2.length := by omega
  have hz : (l1.zip l2).getD i (0, 0) = (l1[i], l2[i]) := by
    rw [List.getD_eq_getElem?_getD, List.getElem?_eq_getElem hzi, Option.getD_some]
    exact List.getElem_zip
  rw [hz, getD_eq_getElem _ _ hi, getD_eq_getElem _ _ hi2]
  exact ⟨rfl, rfl⟩

theorem runsSpec_length_eq (l : List Nat) (hs : l.Chain' (· < ·)) (hne : l ≠ []) :
    (runsSpec l).length = (bks l).length + 1 := by
  rw [← zip_runsSpec l hs hne, List.length_zip, length_atIdxs_startL,
    length_atIdxs_endLN]
  simp

/-- C9: with a 1-based in-range batch index `b`, the ignore marking of the
embedded-key view relabels exactly the `b`-th maximal run of flat-labelled
frames to 3 (every frame in that run was flat-labelled, and no other entry
changes), and those positions are absent from every subsequent
`get_index(1, ...)` result — hence also from the positions `flat()` gathers. -/
theorem claim_C9 (ik : List Nat) (pv : Option (List PySlice)) (pd b : Nat)
    (hb1 : 1 ≤ b) (hb2 : b ≤ (runsSpec (whereEq ik 1)).length) :
    ∃ ik', ignoreImageKeyEntries ik pv pd [b] = some ik' ∧
      ik'.length = ik.length ∧
      (∀ p, ((runsSpec (whereEq ik 1)).getD (b - 1) (0, 0)).1 ≤ p →
            p ≤ ((runsSpec (whereEq ik 1)).getD (b - 1) (0, 0)).2 →
        ik.getD p 0 = 1 ∧ ik'.getD p 0 = 3 ∧
        ∀ (pv' : Option (List PySlice)) (pd' : Nat) (full : Bool),
          p ∉ getIndex ik' pv' pd' 1 full) ∧
      (∀ p, (p < ((runsSpec (whereEq ik 1)).getD (b - 1) (0, 0)).1 ∨
             ((runsSpec (whereEq ik 1)).getD (b - 1) (0, 0)).2 < p) →
        ik'.getD p 0 = ik.getD p 0) := by
  have hchain := whereEq_chain ik 1
  have hrs_ne : runsSpec (whereEq ik 1) ≠ [] := by
    intro h
    rw [h] at hb2
    simp at hb2
    omega
  have hfne : whereEq ik 1 ≠ [] := by
    intro h
    rw [h] at hrs_ne
    exact hrs_ne rfl
  have hidx : getIndex ik pv pd 1 false = whereEq ik 1 :=
    getIndex_of_ne_zero ik pv pd 1 false (by omega)
  have hg := getStartEndIdx_eq (whereEq ik 1) hfne
  have hlenrs := runsSpec_length_eq (whereEq ik 1) hchain hfne
  have hlb : b - 1 < (atIdxs (whereEq ik 1) (startL (whereEq ik 1))).length := by
    rw [length_atIdxs_startL]
    omega
  have hlb2 : b - 1 < (atIdxs (whereEq ik 1) (endLN (whereEq ik 1))).length := by
    rw [length_atIdxs_endLN]
    omega
  have hzd := zip_getD_eq (zip_runsSpec (whereEq ik 1) hchain hfne)
    (by rw [length_atIdxs_startL, length_atIdxs_endLN]) (b - 1)
    (by rw [length_atIdxs_startL]; omega)
  have hcast : ((b : Int) - 1) = Int.ofNat (b - 1) := by
    rw [ofNat_cast]
    omega
  have hnpS : npGet (atIdxs (whereEq ik 1) (startL (whereEq ik 1))) ((b : Int) - 1) =
      some ((atIdxs (whereEq ik 1) (startL (whereEq ik 1))).getD (b - 1) 0) := by
    rw [hcast, npGet_ofNat _ _ hlb, List.get?_eq_getElem?, List.getElem?_eq_getElem hlb,
      getD_eq_getElem _ _ hlb]
  have hnpE : npGet (atIdxs (whereEq ik 1) (endLN (whereEq ik 1))) ((b : Int) - 1) =
      some ((atIdxs (whereEq ik 1) (endLN (whereEq ik 1))).getD (b - 1) 0) := by
    rw [hcast, npGet_ofNat _ _ hlb2, List.get?_eq_getElem?, List.getElem?_eq_getElem hlb2,
      getD_eq_getElem _ _ hlb2]
  set s0 := (atIdxs (whereEq ik 1) (startL (whereEq ik 1))).getD (b - 1) 0 with hs0
  set e0 := (atIdxs (whereEq ik 1) (endLN (whereEq ik 1))).getD (b - 1) 0 with he0
  have hrun1 : s0 = ((runsSpec (whereEq ik 1)).getD (b - 1) (0, 0)).1 := hzd.1
  have hrun2 : e0 = ((runsSpec (whereEq ik 1)).getD (b - 1) (0, 0)).2 := hzd.2
  have hresult : ignoreImageKeyEntries ik pv pd [b] =
      some (sliceAssign ik s0 (e0 + 1) 3) := by
    rw [ignoreImageKeyEntries, hidx, hg, Option.some_bind]
    show List.foldlM _ ik [b] = _
    rw [List.foldlM_cons]
    show (npGet (atIdxs (whereEq ik 1) (startL (whereEq ik 1))) ((b : Int) - 1)).bind _ >>= _ = _
    rw [hnpS, Option.some_bind, hnpE]
    rfl
  refine ⟨sliceAssign ik s0 (e0 + 1) 3, hresult, ?_, ?_, ?_⟩
  · rw [sliceAssign, List.length_mapIdx]
  · intro p hp1 hp2
    rw [← hrun1] at hp1
    rw [← hrun2] at hp2
    have hmemrs : ((runsSpec (whereEq ik 1)).getD (b - 1) (0, 0)) ∈
        runsSpec (whereEq ik 1) := by
      rw [List.getD_eq_getElem?_getD,
        List.getElem?_eq_getElem (by omega : b - 1 < (runsSpec (whereEq ik 1)).length)]
      exact List.getElem_mem _
    have hpmem : p ∈ whereEq ik 1 := by
      refine runsSpec_interval (whereEq ik 1) s0 e0 ?_ p hp1 hp2
      rw [hrun1, hrun2, Prod.mk.eta]
      exact hmemrs
    have hplen : p < ik.length := (mem_whereEq.mp hpmem).1
    have hpval : ik.getD p 0 = 1 := (mem_whereEq.mp hpmem).2
    have hpset : (sliceAssign ik s0 (e0 + 1) 3).getD p 0 = 3 := by
      rw [sliceAssign_getD, if_pos hplen, if_pos (by omega)]
    refine ⟨hpval, hpset, ?_⟩
    intro pv' pd' full hmem
    have := (mem_whereEq.mp (getIndex_subset _ pv' pd' 1 full p hmem)).2
    rw [hpset] at this
    omega
  · intro p hp
    rw [← hrun1, ← hrun2] at hp
    rw [sliceAssign_getD]
    by_cases hplen : p < ik.length
    · rw [if_pos hplen, if_neg (by omega)]
    · rw [if_neg hplen, List.getD_eq_getElem?_getD,
        List.getElem?_eq_none (by omega : ik.length ≤ p)]
      rfl

/-- C9 witness: ignoring batch 2 of the flat runs in `[1,1,0,0,1,1,0,1]`. -/
theorem claim_C9_witness :
    ∃ ik', ignoreImageKeyEntries [1, 1, 0, 0, 1, 1, 0, 1] none 0 [2] = some ik' ∧
      ik'.length = ([1, 1, 0, 0, 1, 1, 0, 1] : List Nat).length ∧
      (∀ p, ((runsSpec (whereEq [1, 1, 0, 0, 1, 1, 0, 1] 1)).getD (2 - 1) (0, 0)).1 ≤ p →
            p ≤ ((runsSpec (whereEq [1, 1, 0, 0, 1, 1, 0, 1] 1)).getD (2 - 1) (0, 0)).2 →
        ([1, 1, 0, 0, 1, 1, 0, 1] : List Nat).getD p 0 = 1 ∧ ik'.getD p 0 = 3 ∧
        ∀ (pv' : Option (List PySlice)) (pd' : Nat) (full : Bool),
          p ∉ getIndex ik' pv' pd' 1 full) ∧
      (∀ p, (p < ((runsSpec (whereEq [1, 1, 0, 0, 1, 1, 0, 1] 1)).getD (2 - 1) (0, 0)).1 ∨
             ((runsSpec (whereEq [1, 1, 0, 0, 1, 1, 0, 1] 1)).getD (2 - 1) (0, 0)).2 < p) →
        ik'.getD p 0 = ([1, 1, 0, 0, 1, 1, 0, 1] : List Nat).getD p 0) :=
  claim_C9 [1, 1, 0, 0, 1, 1, 0, 1] none 0 2 (by decide) (by decide)

theorem foldl_eraseIdx_map_succ {α : Type} :
    ∀ (rs : List Nat) (a : α) (t : List α),
      List.foldl List.eraseIdx (a :: t) (rs.map Nat.succ) =
        a :: List.foldl List.eraseIdx t rs
  | [], _, _ => rfl
  | r :: rs, a, t => by
    rw [List.map_cons, List.foldl_cons, List.foldl_cons, List.eraseIdx_cons_succ]
    exact foldl_eraseIdx_map_succ rs a (t.eraseIdx r)

theorem filter_range_succ (n : Nat) (p : Nat → Bool) :
    (List.range (n + 1)).filter p =
      (if p 0 then [0] else []) ++ ((List.range n).filter (fun d => p (d + 1))).map Nat.succ := by
  rw [List.range_succ_eq_map, List.filter_cons, List.filter_map]
  have h : (p ∘ Nat.succ) = fun d => p (d + 1) := by
    funext d
    rfl
  rw [h]
  by_cases hp : p 0 <;> simp [hp]

theorem foldl_eraseIdx_filter_rev {α : Type} [Inhabited α] :
    ∀ (l : List α) (p : Nat → Bool),
      List.foldl List.eraseIdx l (((List.range l.length).filter p).reverse) =
        ((List.range l.length).filter (fun d => !(p d))).map (fun d => l.getD d default)
  | [], p => rfl
  | a :: t, p => by
    have ih := foldl_eraseIdx_filter_rev t (fun d => p (d + 1))
    rw [show (a :: t).length = t.length + 1 from rfl]
    rw [filter_range_succ t.length p, filter_range_succ t.length (fun d => !(p d))]
    rw [List.reverse_append, ← List.map_reverse, List.foldl_append]
    rw [foldl_eraseIdx_map_succ, ih]
    rw [List.map_append, List.map_map]
    have hm : ∀ (q : Nat → Bool),
        ((List.range t.length).filter q).map ((fun d => (a :: t).getD d default) ∘ Nat.succ) =
          ((List.range t.length).filter q).map (fun d => t.getD d default) := by
      intro q
      apply List.map_congr_left
      intro d _
      show (a :: t).getD (d + 1) default = t.getD d default
      rw [List.getD_cons_succ]
    rw [hm]
    by_cases hp : p 0
    · rw [if_pos hp, if_neg (by rw [hp]; decide)]
      rfl
    · rw [if_neg hp, if_pos (by rw [Bool.eq_false_iff.mpr hp]; decide)]
      rfl

/-- C6: `get_dark_flat_slice_list()` replaces the rotation-angle entry of the
preview slice list with select-all and, when the list has more than 3 entries,
deletes every dimension other than rotation-angle, detector-x, detector-y in
descending order — leaving exactly those dimensions' entries in ascending
order; for 5 dimensions with the kept axes at 0, 2, 3 the result is the
entries at dimensions 0, 2, 3 with dimension 0 select-all. -/
theorem claim_C6 (sliceList : List PySlice) (rotDim detX detY : Nat)
    (hrot : rotDim < sliceList.length) :
    (3 < sliceList.length →
      getDarkFlatSliceList sliceList rotDim detX detY =
        some (((List.range sliceList.length).filter
            (fun d => d == rotDim || d == detX || d == detY)).map
          (fun d => (sliceList.set rotDim sliceAll).getD d sliceAll))) ∧
    (sliceList.length ≤ 3 →
      getDarkFlatSliceList sliceList rotDim detX detY =
        some (sliceList.set rotDim sliceAll)) ∧
    getDarkFlatSliceList
        [⟨some 1, some 3, none⟩, ⟨some 0, some 9, none⟩, ⟨some 2, some 7, none⟩,
         ⟨some 1, some 5, none⟩, ⟨some 0, some 2, none⟩] 0 2 3 =
      some [sliceAll, ⟨some 2, some 7, none⟩, ⟨some 1, some 5, none⟩] := by
  refine ⟨?_, ?_, by decide⟩
  · intro hlen
    have hkey := foldl_eraseIdx_filter_rev (sliceList.set rotDim sliceAll)
      (fun d => !(d == rotDim || d == detX || d == detY))
    rw [List.length_set] at hkey
    simp only [Bool.not_not] at hkey
    rw [getDarkFlatSliceList, if_pos hrot, if_pos (by rw [List.length_set]; exact hlen)]
    simp only [List.length_set, hkey]
    rfl
  · intro hlen
    rw [getDarkFlatSliceList, if_pos hrot,
      if_neg (by rw [List.length_set]; omega)]

/-- C6 witness: a 5-dimensional preview slice list with the kept axes at
dimensions 0, 2, 3. -/
theorem claim_C6_witness :
    (3 < ([⟨some 1, some 3, none⟩, ⟨some 0, some 9, none⟩, ⟨some 2, some 7, none⟩,
         ⟨some 1, some 5, none⟩, ⟨some 0, some 2, none⟩] : List PySlice).length →
      getDarkFlatSliceList
          [⟨some 1, some 3, none⟩, ⟨some 0, some 9, none⟩, ⟨some 2, some 7, none⟩,
           ⟨some 1, some 5, none⟩, ⟨some 0, some 2, none⟩] 0 2 3 =
        some (((List.range ([⟨some 1, some 3, none⟩, ⟨some 0, some 9, none⟩,
              ⟨some 2, some 7, none⟩, ⟨some 1, some 5, none⟩,
              ⟨some 0, some 2, none⟩] : List PySlice).length).filter
            (fun d => d == 0 || d == 2 || d == 3)).map
          (fun d => (([⟨some 1, some 3, none⟩, ⟨some 0, some 9, none⟩,
              ⟨some 2, some 7, none⟩, ⟨some 1, some 5, none⟩,
              ⟨some 0, some 2, none⟩] : List PySlice).set 0 sliceAll).getD d sliceAll))) ∧
    (([⟨some 1, some 3, none⟩, ⟨some 0, some 9, none⟩, ⟨some 2, some 7, none⟩,
         ⟨some 1, some 5, none⟩, ⟨some 0, some 2, none⟩] : List PySlice).length ≤ 3 →
      getDarkFlatSliceList
          [⟨some 1, some 3, none⟩, ⟨some 0, some 9, none⟩, ⟨some 2, some 7, none⟩,
           ⟨some 1, some 5, none⟩, ⟨some 0, some 2, none⟩] 0 2 3 =
        some (([⟨some 1, some 3, none⟩, ⟨some 0, some 9, none⟩, ⟨some 2, some 7, none⟩,
           ⟨some 1, some 5, none⟩, ⟨some 0, some 2, none⟩] : List PySlice).set 0 sliceAll)) ∧
    getDarkFlatSliceList
        [⟨some 1, some 3, none⟩, ⟨some 0, some 9, none⟩, ⟨some 2, some 7, none⟩,
         ⟨some 1, some 5, none⟩, ⟨some 0, some 2, none⟩] 0 2 3 =
      some [sliceAll, ⟨some 2, some 7, none⟩, ⟨some 1, some 5, none⟩] :=
  claim_C6 _ 0 2 3 (by decide)

theorem ndarr_ext (a b : NDArr) (h1 : a.shape = b.shape) (h2 : a.val = b.val) :
    a = b := by
  cases a
  cases b
  cases h1
  cases h2
  rfl

theorem smul_one (a : NDArr) : smul 1 a = a := by
  refine ndarr_ext _ _ rfl ?_
  funext ix
  show 1 * a.val ix = a.val ix
  rw [one_mul]

theorem meanAxis_smul (pd : Nat) (c : ℚ) (a : NDArr) :
    meanAxis pd (smul c a) = (meanAxis pd a).map (smul c) := by
  unfold meanAxis
  by_cases hpd : pd < a.shape.length
  · rw [if_pos (show pd < (smul c a).shape.length from hpd), if_pos hpd]
    rw [Option.map_some']
    congr 1
    refine ndarr_ext _ _ rfl ?_
    funext ix
    show (∑ j ∈ Finset.range (a.shape.getD pd 0), c * a.val (insertAt pd j ix)) /
        (a.shape.getD pd 0) =
      c * ((∑ j ∈ Finset.range (a.shape.getD pd 0), a.val (insertAt pd j ix)) /
        (a.shape.getD pd 0))
    rw [← Finset.mul_sum, mul_div_assoc]
  · rw [if_neg (show ¬pd < (smul c a).shape.length from hpd), if_neg hpd]
    rfl

theorem calcMean_smul (pd : Nat) (c : ℚ) (a : NDArr) :
    calcMean pd (smul c a) = (calcMean pd a).map (smul c) := by
  unfold calcMean
  by_cases h2 : a.shape.length = 2
  · rw [if_pos (show (smul c a).shape.length = 2 from h2), if_pos h2]
    rfl
  · rw [if_neg (show ¬(smul c a).shape.length = 2 from h2), if_neg h2]
    rw [meanAxis_smul]
    cases meanAxis pd a <;> rfl

theorem map_smul_one (x : Option NDArr) : x.map (smul 1) = x := by
  cases x with
  | none => rfl
  | some a => rw [Option.map_some', smul_one]

theorem imageKeyFlat_of_none (st : DFState) (h : st.flatUpdated = none) :
    imageKeyFlat st = (getData st 1).map (smul st.fscale) := by
  unfold imageKeyFlat
  rw [h]
  rfl

theorem imageKeyDark_of_none (st : DFState) (h : st.darkUpdated = none) :
    imageKeyDark st = (getData st 2).map (smul st.dscale) := by
  unfold imageKeyDark
  rw [h]
  rfl

/-- C2 (amended): without an override, `flat()` returns the extracted flat
frames (through the cached calibration slice list) multiplied by the flat
scale factor, with no averaging; the averaging with the float cast lives in
`flat_mean() = _calc_mean(flat())`, so `set_flat_scale(2.0)` (or any scale `c`)
makes `flat_mean()` exactly `c` times the unscaled (`fscale = 1`) flat mean;
symmetrically for `dark()`/`dark_mean()`. -/
theorem claim_C2 (st : DFState) (c : ℚ)
    (hf : st.flatUpdated = none) (hd : st.darkUpdated = none) :
    imageKeyFlat (setFlatScale st c) = (getData st 1).map (smul c) ∧
    flatMean (setFlatScale st c) = (flatMean (setFlatScale st 1)).map (smul c) ∧
    imageKeyDark (setDarkScale st c) = (getData st 2).map (smul c) ∧
    darkMean (setDarkScale st c) = (darkMean (setDarkScale st 1)).map (smul c) := by
  have hflat : ∀ d : ℚ, imageKeyFlat (setFlatScale st d) = (getData st 1).map (smul d) :=
    fun d => imageKeyFlat_of_none (setFlatScale st d) hf
  have hdark : ∀ d : ℚ, imageKeyDark (setDarkScale st d) = (getData st 2).map (smul d) :=
    fun d => imageKeyDark_of_none (setDarkScale st d) hd
  refine ⟨hflat c, ?_, hdark c, ?_⟩
  · unfold flatMean
    rw [hflat c, hflat 1, map_smul_one]
    cases getData st 1 with
    | none => rfl
    | some a =>
      rw [Option.map_some', Option.some_bind, Option.some_bind]
      exact calcMean_smul st.projDim c a
  · unfold darkMean
    rw [hdark c, hdark 1, map_smul_one]
    cases getData st 2 with
    | none => rfl
    | some a =>
      rw [Option.map_some', Option.some_bind, Option.some_bind]
      exact calcMean_smul st.projDim c a

/-- C2 counterexample: on a view with two flat frames, `flat()` after
`set_flat_scale(2.0)` is a 3-d stack of shape 2 x 2 x 2, while 2.0 times the
unscaled flat mean is 2-d of shape 2 x 2 — so `flat()` is not 2.0 times the
unscaled flat mean, refuting the claim that `flat()` itself averages. -/
theorem claim_C2_counterexample :
    (imageKeyFlat (setFlatScale stEx 2)).map NDArr.shape = some [2, 2, 2] ∧
    ((flatMean (setFlatScale stEx 1)).map (smul 2)).map NDArr.shape = some [2, 2] ∧
    imageKeyFlat (setFlatScale stEx 2) ≠ (flatMean (setFlatScale stEx 1)).map (smul 2) := by
  refine ⟨rfl, rfl, ?_⟩
  intro h
  have h2 := congrArg (Option.map NDArr.shape) h
  rw [show (imageKeyFlat (setFlatScale stEx 2)).map NDArr.shape = some [2, 2, 2]
    from rfl] at h2
  rw [show ((flatMean (setFlatScale stEx 1)).map (smul 2)).map NDArr.shape = some [2, 2]
    from rfl] at h2
  exact absurd h2 (by decide)

/-- C2 witness: the amended scaling law applied at the concrete view `stEx`
with scale 2. -/
theorem claim_C2_witness :
    imageKeyFlat (setFlatScale stEx 2) = (getData stEx 1).map (smul 2) ∧
    flatMean (setFlatScale stEx 2) = (flatMean (setFlatScale stEx 1)).map (smul 2) ∧
    imageKeyDark (setDarkScale stEx 2) = (getData stEx 2).map (smul 2) ∧
    darkMean (setDarkScale stEx 2) = (darkMean (setDarkScale stEx 1)).map (smul 2) :=
  claim_C2 stEx 2 rfl rfl

theorem calcMean_cases (pd : Nat) (x m : NDArr) (h : calcMean pd x = some m) :
    (x.shape.length = 2 ∧ m = x) ∨
    (x.shape.length ≠ 2 ∧ pd < x.shape.length ∧
      m.shape = x.shape.eraseIdx pd ∧
      ∀ ix, m.val ix =
        (∑ j ∈ Finset.range (x.shape.getD pd 0), x.val (insertAt pd j ix)) /
          (x.shape.getD pd 0)) := by
  unfold calcMean at h
  by_cases h2 : x.shape.length = 2
  · rw [if_pos h2] at h
    exact Or.inl ⟨h2, (Option.some_inj.mp h).symm⟩
  · rw [if_neg h2] at h
    unfold meanAxis at h
    by_cases hpd : pd < x.shape.length
    · rw [if_pos hpd] at h
      rw [Option.map_some'] at h
      have hm := (Option.some_inj.mp h).symm
      refine Or.inr ⟨h2, hpd, ?_, ?_⟩
      · rw [hm]
        rfl
      · intro ix
        rw [hm]
        rfl
    · rw [if_neg hpd] at h
      exact absurd h (by simp)

/-- C4 (amended): `update_dark(frame)` (resp. `update_flat`) stores the frame
as the sticky override, resets the dark (resp. flat) scale factor to exactly
1.0, and writes `_calc_mean(frame)` to the metadata store under `"dark"`
(resp. `"flat"`): the frame itself when it has exactly two dimensions, and
otherwise its mean across the projection axis (cast to float, exact in this
model). -/
theorem claim_C4 (st : DFState) (x : NDArr) :
    (∀ st', updateDark st x = some st' →
      st'.darkUpdated = some x ∧ st'.dscale = 1 ∧
      (x.shape.length = 2 → st'.metaDark = some x) ∧
      (x.shape.length ≠ 2 → ∃ m, st'.metaDark = some m ∧
        m.shape = x.shape.eraseIdx st.projDim ∧
        ∀ ix, m.val ix =
          (∑ j ∈ Finset.range (x.shape.getD st.projDim 0),
            x.val (insertAt st.projDim j ix)) / (x.shape.getD st.projDim 0))) ∧
    (∀ st', updateFlat st x = some st' →
      st'.flatUpdated = some x ∧ st'.fscale = 1 ∧
      (x.shape.length = 2 → st'.metaFlat = some x) ∧
      (x.shape.length ≠ 2 → ∃ m, st'.metaFlat = some m ∧
        m.shape = x.shape.eraseIdx st.projDim ∧
        ∀ ix, m.val ix =
          (∑ j ∈ Finset.range (x.shape.getD st.projDim 0),
            x.val (insertAt st.projDim j ix)) / (x.shape.getD st.projDim 0))) := by
  constructor
  · intro st' h
    unfold updateDark at h
    cases hcm : calcMean st.projDim x with
    | none => rw [hcm] at h; exact absurd h (by simp)
    | some m0 =>
      rw [hcm, Option.map_some'] at h
      have hst := (Option.some_inj.mp h).symm
      rcases calcMean_cases st.projDim x m0 hcm with ⟨h2, hm0⟩ | ⟨h2, hpd, hsh, hval⟩
      · exact ⟨by rw [hst], by rw [hst], fun _ => by rw [hst, hm0],
          fun hne => absurd h2 hne⟩
      · exact ⟨by rw [hst], by rw [hst], fun he => absurd he h2,
          fun _ => ⟨m0, by rw [hst], hsh, hval⟩⟩
  · intro st' h
    unfold updateFlat at h
    cases hcm : calcMean st.projDim x with
    | none => rw [hcm] at h; exact absurd h (by simp)
    | some m0 =>
      rw [hcm, Option.map_some'] at h
      have hst := (Option.some_inj.mp h).symm
      rcases calcMean_cases st.projDim x m0 hcm with ⟨h2, hm0⟩ | ⟨h2, hpd, hsh, hval⟩
      · exact ⟨by rw [hst], by rw [hst], fun _ => by rw [hst, hm0],
          fun hne => absurd h2 hne⟩
      · exact ⟨by rw [hst], by rw [hst], fun he => absurd he h2,
          fun _ => ⟨m0, by rw [hst], hsh, hval⟩⟩

/-- C4 counterexample: for the 1-dimensional frame `[1, 2]` the claim's
condition ("frame itself unless more than two dimensions") would publish the
frame itself, but `_calc_mean` keeps the frame only for exactly 2 dimensions:
the published value is the 0-d mean (value 3/2), not the frame. -/
theorem claim_C4_counterexample :
    updateDark stEx arr1d = some stExDark1d ∧
    arr1d.shape = [2] ∧
    stExDark1d.metaDark.map NDArr.shape = some [] ∧
    stExDark1d.metaDark ≠ some arr1d ∧
    meanArr1d.val [] = 3 / 2 := by
  refine ⟨rfl, rfl, rfl, ?_, ?_⟩
  · intro h
    have h3 : ([] : List Nat) = [2] := congrArg NDArr.shape (Option.some_inj.mp h)
    exact absurd h3 (by decide)
  · show (∑ j ∈ Finset.range 2, arr1d.val (insertAt 0 j [])) / ((2 : Nat) : ℚ) = 3 / 2
    rw [Finset.sum_range_succ, Finset.sum_range_succ, Finset.sum_range_zero]
    show ((0 : ℚ) + arr1d.val [0] + arr1d.val [1]) / ((2 : Nat) : ℚ) = 3 / 2
    norm_num [arr1d]

/-- C4 witness: the amended update law applied at the 2 x 2 frame `arr22`. -/
theorem claim_C4_witness :
    stExDark.darkUpdated = some arr22 ∧ stExDark.dscale = 1 ∧
    (arr22.shape.length = 2 → stExDark.metaDark = some arr22) ∧
    (arr22.shape.length ≠ 2 → ∃ m, stExDark.metaDark = some m ∧
      m.shape = arr22.shape.eraseIdx stEx.projDim ∧
      ∀ ix, m.val ix =
        (∑ j ∈ Finset.range (arr22.shape.getD stEx.projDim 0),
          arr22.val (insertAt stEx.projDim j ix)) /
            (arr22.shape.getD stEx.projDim 0)) :=
  (claim_C4 stEx arr22).1 stExDark rfl

/-- C3: after `update_dark(X)` with a multi-element `X`, `dark()` on both view
variants evaluates `bool(X)` and raises `ValueError` instead of returning `X`
verbatim; after `update_flat(Y)` the external-reference `flat()` calls the
stored override (`self.flat_updated()`) and raises `TypeError` even for a
one-element truthy `Y` (for which the embedded-key `flat()` does return `Y`).
The updates themselves succeed. -/
theorem claim_C3 :
    (updateDark stEx arr22).isSome = true ∧
    (updateDark stEx arr22).bind imageKeyDark = none ∧
    (nkUpdateDark stNKEx arr22).isSome = true ∧
    (nkUpdateDark stNKEx arr22).bind noImageKeyDark = none ∧
    (updateFlat stEx arr11).bind imageKeyFlat = some arr11 ∧
    (nkUpdateFlat stNKEx arr11).isSome = true ∧
    (nkUpdateFlat stNKEx arr11).bind noImageKeyFlat = none :=
  ⟨rfl, rfl, rfl, rfl, rfl, rfl, rfl⟩

end Savu
